import Mathlib

/-!
Verification of the membership/permission resolution engine of centra-reto.

The definitions below are a shallow embedding of the `User` class
(src/unnamed/part_000): `getGroups` (recursive group expansion with
time-window merging), `getPermissions` (permission tree construction),
`hasPermission` (wildcard-aware tree walk), `addToGroup` and
`endGroupMembership` (membership mutation with cache handling).

Conventions of the embedding:
- machine numbers are `Int` (epoch seconds and ids are small);
- a nullable column is `Option Int` / `Option String` with `none` for
  SQL NULL / JS `undefined`;
- JavaScript truthiness on a nullable number (`if (timeTo)`) is
  `jsTruthy`: `none` and `some 0` are falsy;
- `Math.min`/`Math.max` applied to an `undefined` operand produce `NaN`;
  a `NaN`-or-`undefined` number is collapsed into `none`, whose ordered
  comparisons are all false, exactly like `NaN` comparisons in JS;
- the single-user database (tables `groups`, `users_groups`,
  `groups_permissions`, `users_permissions`) is a record of lists; SQL
  `where id in (...)` is a filter in table order (SQLite allows an empty
  IN list, yielding no rows);
- the unbounded recursion of `handleRows` is run on explicit fuel; a
  run that exhausts its fuel is distinguished from one that returns or
  throws, so termination is the statement that some fuel suffices.
-/

/-- Truthiness of a nullable JS number: null/undefined and 0 are falsy. -/
def jsTruthy : Option Int → Bool
  | none => false
  | some v => v != 0

/-- Math.min over two possibly-undefined numbers: an undefined or NaN operand
makes the result NaN (collapsed to none). -/
def jsMin : Option Int → Option Int → Option Int
  | some a, some b => some (min a b)
  | _, _ => none

/-- Ordered comparison a > n where a may be NaN/undefined (then false, as in JS). -/
def jsGt (a : Option Int) (n : Int) : Bool :=
  match a with
  | some v => decide (v > n)
  | none => false

/-- Ordered comparison a < n where a may be NaN/undefined (then false, as in JS). -/
def jsLt (a : Option Int) (n : Int) : Bool :=
  match a with
  | some v => decide (v < n)
  | none => false

/-- JS String.prototype.split with separator '.' : "a.b".split('.'), with
"".split('.') = [""]; implemented structurally so it evaluates in the kernel. -/
def splitDotGo : List Char → List Char → List String
  | [], acc => [String.mk acc.reverse]
  | c :: cs, acc =>
    if c = '.' then String.mk acc.reverse :: splitDotGo cs []
    else splitDotGo cs (c :: acc)

/-- Split a permission string on dots, as permission.split('.') does. -/
def jsSplitDot (s : String) : List String := splitDotGo s.data []

/-- Prefix test on character lists, used to locate a pattern occurrence. -/
def headMatches : List Char → List Char → Bool
  | [], _ => true
  | _ :: _, [] => false
  | p :: ps, c :: cs => p == c && headMatches ps cs

/-- Replace the leftmost occurrence of pat by rep in text; none when absent. -/
def replFirstGo (pat rep : List Char) : List Char → Option (List Char)
  | [] => if headMatches pat [] then some rep else none
  | c :: cs =>
    if headMatches pat (c :: cs) then some (rep ++ (c :: cs).drop pat.length)
    else (replFirstGo pat rep cs).map (c :: ·)

/-- JS String.prototype.replace with a plain-string pattern: replaces only the
first occurrence of pat (the name-display substitution loop relies on this);
the string is returned unchanged when the pattern does not occur. -/
def replaceFirst (s pat rep : String) : String :=
  match replFirstGo pat.data rep.data s.data with
  | some cs => String.mk cs
  | none => s

/-- Kernel of the csv-parse model: cs = remaining characters, inQ = inside a
quoted field, f = current field (reversed), fs = fields of the current record
(reversed), rs = finished records (reversed). -/
def csvGo : List Char → Bool → List Char → List String → List (List String) →
    Except Unit (List (List String))
  | [], true, _, _, _ => .error ()
  | [], false, f, fs, rs =>
    if f.isEmpty && fs.isEmpty then .ok rs.reverse
    else .ok (((String.mk f.reverse :: fs).reverse) :: rs).reverse
  | '"' :: '"' :: cs, true, f, fs, rs => csvGo cs true ('"' :: f) fs rs
  | '"' :: cs, true, f, fs, rs => csvGo cs false f fs rs
  | '"' :: cs, false, f, fs, rs =>
    if f.isEmpty then csvGo cs true f fs rs
    else csvGo cs false ('"' :: f) fs rs
  | ',' :: cs, false, f, fs, rs => csvGo cs false [] (String.mk f.reverse :: fs) rs
  | '\n' :: cs, false, f, fs, rs =>
    csvGo cs false [] [] (((String.mk f.reverse :: fs).reverse) :: rs)
  | c :: cs, inQ, f, fs, rs => csvGo cs inQ (c :: f) fs rs

/-- Model of the promisified csv-parse dependency (an external library, not
repository code) at its default options as used by part_000: comma-delimited
fields, newline-separated records, double-quote quoting with doubled-quote
escapes. An unterminated quoted field rejects (csv-parse raises a quoting
error), which the caller awaits without any try/catch; the empty string
parses to an empty record list. -/
def csvParse (s : String) : Except Unit (List (List String)) :=
  csvGo s.data false [] [] []

/-- Row of the groups table (column args is the raw csv-encoded group args). -/
structure GroupRow where
  id : Int
  nameBase : String
  nameDisplay : Option String
  membersAllowed : Bool
  parent : Option Int
  isPublic : Bool
  searchable : Bool
  args : Option String
  deriving DecidableEq, Repr, Inhabited

/-- Row of the users_groups table for the user under consideration. -/
structure MembershipRow where
  groupId : Int
  timeFrom : Int
  timeTo : Option Int
  args : Option String
  deriving DecidableEq, Repr, Inhabited

/-- The single-user view of the database consumed by the engine. -/
structure Db where
  groups : List GroupRow
  memberships : List MembershipRow
  groupPerms : List (Int × String)
  userPerms : List String
  deriving DecidableEq, Repr, Inhabited

/-- The object built by new Group(...) inside handleRows (args already parsed). -/
structure GroupObj where
  id : Int
  nameBase : String
  nameDisplay : Option String
  membersAllowed : Bool
  parent : Option Int
  isPublic : Bool
  searchable : Bool
  args : List String
  deriving DecidableEq, Repr, Inhabited

/-- The per-user side of a resolved map entry (the user: {...} record). -/
structure UserSide where
  args : List String
  timeFrom : Option Int
  timeTo : Option Int
  active : Bool
  direct : Bool
  children : Option (List Int)
  name : String
  deriving DecidableEq, Repr, Inhabited

/-- One value of the this.groups Map: the Group object plus the user record. -/
structure GroupEntry where
  group : GroupObj
  user : UserSide
  deriving DecidableEq, Repr, Inhabited

/-- JS Map lookup on the insertion-ordered association list modelling Map. -/
def mapGet? : List (Int × GroupEntry) → Int → Option GroupEntry
  | [], _ => none
  | (k, v) :: rest, key => if k == key then some v else mapGet? rest key

/-- JS Map.has. -/
def mapHas (m : List (Int × GroupEntry)) (k : Int) : Bool :=
  (mapGet? m k).isSome

/-- JS Map.set: replaces in place (keeping iteration order) or appends. -/
def mapSet : List (Int × GroupEntry) → Int → GroupEntry → List (Int × GroupEntry)
  | [], k, v => [(k, v)]
  | p :: rest, k, v => if p.1 == k then (k, v) :: rest else p :: mapSet rest k v

/-- Lookup in the pairings object (parent id to contributing child ids). -/
def pairingsGet? : List (Int × List Int) → Int → Option (List Int)
  | [], _ => none
  | (k, v) :: rest, key => if k == key then some v else pairingsGet? rest key

/-- pairings[parent].push(child), creating the array if absent. -/
def pairingsAdd : List (Int × List Int) → Int → Int → List (Int × List Int)
  | [], p, c => [(p, [c])]
  | e :: rest, p, c =>
    if e.1 == p then (p, e.2 ++ [c]) :: rest else e :: pairingsAdd rest p c

/-- Mutable state of one getGroups expansion: the this.groups Map and the
pairings object (both persist across recursive handleRows levels). -/
structure ExpState where
  groups : List (Int × GroupEntry)
  pairings : List (Int × List Int)
  deriving DecidableEq, Repr, Inhabited

/-- A row as consumed by handleRows: either a users_groups/groups join row
(direct, with from/to and user args) or a groups-table row fetched for a
parent id (direct false, from/to/user args absent). -/
structure JoinRow where
  id : Int
  timeFrom : Option Int
  timeTo : Option Int
  nameBase : String
  nameDisplay : Option String
  membersAllowed : Bool
  parent : Option Int
  isPublic : Bool
  searchable : Bool
  groupArgs : Option String
  userArgs : Option String
  direct : Bool
  deriving DecidableEq, Repr, Inhabited

/-- timeFrom of a parent synthesized from its children:
Math.min over the children's from values (none = NaN absorbs). The empty list
cannot occur (every fetched parent id was pushed into pairings with a child). -/
def parentFrom : List UserSide → Option Int
  | [] => none
  | [c] => c.timeFrom
  | c :: cs => jsMin c.timeFrom (parentFrom cs)

/-- timeTo of a parent synthesized from its children: Math.max over the
children's to values with a falsy to mapped to Infinity, then an infinite
result mapped back to null. -/
def parentTo : List UserSide → Option Int
  | [] => none
  | [c] => if jsTruthy c.timeTo then c.timeTo else none
  | c :: cs =>
    match parentTo cs with
    | none => none
    | some m => if jsTruthy c.timeTo then some (max (c.timeTo.getD 0) m) else none

/-- Merge of a row's window with an entry already present in this.groups
(lines 374-383 of part_000): from = Math.min of both; to = max when both are
truthy, the existing one when only it is truthy, otherwise the row's value. -/
def mergeTo (rowTo gTo : Option Int) : Option Int :=
  if jsTruthy rowTo && jsTruthy gTo then some (max (rowTo.getD 0) (gTo.getD 0))
  else if jsTruthy gTo then gTo
  else rowTo

/-- Render the per-user display name: if name_display is truthy, substitute
the i-th argument for the first occurrence of the token dollar-sign i+1. -/
def renderGo : String → List String → Nat → String
  | s, [], _ => s
  | s, a :: rest, i => renderGo (replaceFirst s ("$" ++ toString i) a) rest (i + 1)

/-- nameForUser computation of handleRows (and of addToGroup). -/
def renderName (nameBase : String) (nameDisplay : Option String)
    (args : List String) : String :=
  match nameDisplay with
  | none => nameBase
  | some d => if d.isEmpty then nameBase else renderGo d args 1

/-- Processing of one row inside handleRows: window merge with an existing
entry, parent-window synthesis from pairings children for non-direct rows,
active flag, csv parsing of both argument columns (a parse failure rejects,
carrying the state mutated so far), name rendering, this.groups.set, and the
pairings update for the row's parent. -/
def processRow (now : Int) (st : ExpState) (r : JoinRow) : Except ExpState ExpState :=
  match csvParse (r.userArgs.getD "") with
  | .error _ => .error st
  | .ok ua =>
    match csvParse (r.groupArgs.getD "") with
    | .error _ => .error st
    | .ok ga =>
      let prev := mapGet? st.groups r.id
      let tf1 := match prev with
        | some e => jsMin r.timeFrom e.user.timeFrom
        | none => r.timeFrom
      let tt1 := match prev with
        | some e => mergeTo r.timeTo e.user.timeTo
        | none => r.timeTo
      let childIds := pairingsGet? st.pairings r.id
      let childSides :=
        (childIds.getD []).map fun x => ((mapGet? st.groups x).getD default).user
      let tf := if r.direct then tf1 else parentFrom childSides
      let tt := if r.direct then tt1 else parentTo childSides
      let active := !(jsGt tf now) && !(jsTruthy tt && jsLt tt now)
      let uargs := ua.headD []
      let gargs := ga.headD []
      let name := renderName r.nameBase r.nameDisplay uargs
      let gobj : GroupObj :=
        ⟨r.id, r.nameBase, r.nameDisplay, r.membersAllowed, r.parent,
          r.isPublic, r.searchable, gargs⟩
      let e : GroupEntry := ⟨gobj, ⟨uargs, tf, tt, active, r.direct, childIds, name⟩⟩
      let pairings' :=
        if jsTruthy r.parent then pairingsAdd st.pairings (r.parent.getD 0) r.id
        else st.pairings
      .ok ⟨mapSet st.groups r.id e, pairings'⟩

/-- The row loop of handleRows: threads the state through processRow and
collects nextLookup (the truthy parents, in row order). An exception carries
the state as mutated by the rows already processed. -/
def processRows (now : Int) : ExpState → List JoinRow →
    Except ExpState (ExpState × List Int)
  | st, [] => .ok (st, [])
  | st, r :: rs =>
    match processRow now st r with
    | .error e => .error e
    | .ok st1 =>
      match processRows now st1 rs with
      | .error e => .error e
      | .ok (st2, next) =>
        .ok (st2, (if jsTruthy r.parent then [r.parent.getD 0] else []) ++ next)

/-- Batched lookup select ... from groups where id in (nextLookup): the
matching table rows in table order, marked direct = false with the
users_groups columns absent. -/
def fetchGroups (dbGroups : List GroupRow) (ids : List Int) : List JoinRow :=
  (dbGroups.filter fun g => ids.contains g.id).map fun g =>
    ⟨g.id, none, none, g.nameBase, g.nameDisplay, g.membersAllowed, g.parent,
      g.isPublic, g.searchable, g.args, none, false⟩

/-- The join row for one direct membership of the user. -/
def directRow (g : GroupRow) (m : MembershipRow) : JoinRow :=
  ⟨g.id, some m.timeFrom, m.timeTo, g.nameBase, g.nameDisplay, g.membersAllowed,
    g.parent, g.isPublic, g.searchable, g.args, m.args, true⟩

/-- select ... from users_groups inner join groups ... where user_id = ?:
one row per membership whose group exists. -/
def joinRows (db : Db) : List JoinRow :=
  db.memberships.filterMap fun m =>
    (db.groups.find? fun g => g.id == m.groupId).map fun g => directRow g m

/-- Outcome of one expansion run: normal completion, a thrown exception
(both carrying the final this.groups/pairings state), or fuel exhaustion
(the JS recursion would still be running). -/
inductive RunOut where
  | done (st : ExpState)
  | raised (st : ExpState)
  | spin
  deriving DecidableEq, Repr, Inhabited

/-- The recursive handleRows of getGroups, run on fuel: process the level's
rows, stop when no parent ids were collected, otherwise fetch the parents
and recurse. -/
def handleRows (dbGroups : List GroupRow) (now : Int) :
    Nat → ExpState → List JoinRow → RunOut
  | 0, st, rows =>
    match processRows now st rows with
    | .error st' => .raised st'
    | .ok (st', next) => if next.isEmpty then .done st' else .spin
  | fuel + 1, st, rows =>
    match processRows now st rows with
    | .error st' => .raised st'
    | .ok (st', next) =>
      if next.isEmpty then .done st'
      else handleRows dbGroups now fuel st' (fetchGroups dbGroups next)

/-- One full (cache-less) getGroups expansion from the user's direct rows. -/
def expandGroups (db : Db) (now : Int) (fuel : Nat) : RunOut :=
  handleRows db.groups now fuel ⟨[], []⟩ (joinRows db)

/-- The this.groups map produced by a run (empty when the run is still spinning). -/
def RunOut.groupsOf : RunOut → List (Int × GroupEntry)
  | .done st => st.groups
  | .raised st => st.groups
  | .spin => []

/-- Whether a run completed normally. -/
def RunOut.isDone : RunOut → Bool
  | .done _ => true
  | _ => false

/-- Whether a run threw. -/
def RunOut.isRaised : RunOut → Bool
  | .raised _ => true
  | _ => false

/-- Termination of getGroups on a database at a time: some fuel suffices for
the recursion to return or throw rather than keep running. -/
def Terminates (db : Db) (now : Int) : Prop :=
  ∃ fuel, expandGroups db now fuel ≠ RunOut.spin

/-- A value stored under a key of the permissions object: the boolean leaf
true or a nested object (JS objects preserve insertion order). -/
inductive PVal where
  | tt : PVal
  | sub : List (String × PVal) → PVal

/-- The this.permissions object: dotted permission strings compiled into
nested objects with boolean leaves. -/
abbrev PTree := List (String × PVal)

/-- Own-property lookup on the permissions object (the value path[bit] would
yield when bit is an own property). The JS in operator additionally sees the
prototype chain; that inherited case is handled separately via protoNames. -/
def plookup : PTree → String → Option PVal
  | [], _ => none
  | (k, v) :: rest, key => if k == key then some v else plookup rest key

/-- Whether a key is an own property of the object. -/
def pHasKey (t : PTree) (k : String) : Bool := (plookup t k).isSome

/-- The property names every plain object inherits from Object.prototype:
for these the JS in operator answers true even on an empty object literal. -/
def protoNames : List String :=
  ["constructor", "__defineGetter__", "__defineSetter__", "hasOwnProperty",
   "__lookupGetter__", "__lookupSetter__", "isPrototypeOf",
   "propertyIsEnumerable", "toString", "valueOf", "__proto__",
   "toLocaleString"]

/-- The JS in operator on a node of the permissions object: an own property
or a member inherited from Object.prototype. -/
def jsIn (t : PTree) (k : String) : Bool :=
  pHasKey t k || protoNames.contains k

/-- path[bit] = v: an own-property write — replaces in place keeping property
order, or appends (shadowing any inherited member of the same name). -/
def pSet : PTree → String → PVal → PTree
  | [], k, v => [(k, v)]
  | p :: rest, k, v => if p.1 == k then (k, v) :: rest else p :: pSet rest k v

/-- Outcome of the structurize loop: a completed tree, a strict-mode
TypeError (with the tree as mutated so far), or a descent through an
inherited Object.prototype member into a host object, after which the
mutations land outside the permission tree and are not modelled. -/
inductive BuildOut where
  | ok (t : PTree)
  | typeError (t : PTree)
  | hostEscape

/-- Insertion of one split permission into the tree (the structurize loop of
getPermissions): every segment but the last descends, creating empty objects
as needed (the in test that guards creation also sees inherited
Object.prototype members, so such a segment descends into the inherited host
member instead of creating a key: hostEscape); the last segment is set to
the boolean leaf by an own-property write. Descending into an existing
boolean leaf makes the next loop iteration apply the in operator (or a
property write) to a primitive, a TypeError under strict mode. -/
def insertBits : PTree → List String → BuildOut
  | t, [] => .ok t
  | t, [b] => .ok (pSet t b .tt)
  | t, b :: rest =>
    match plookup t b with
    | none =>
      if protoNames.contains b then .hostEscape
      else
        match insertBits [] rest with
        | .ok s => .ok (pSet t b (.sub s))
        | .typeError s => .typeError (pSet t b (.sub s))
        | .hostEscape => .hostEscape
    | some (.sub s) =>
      match insertBits s rest with
      | .ok s' => .ok (pSet t b (.sub s'))
      | .typeError s' => .typeError (pSet t b (.sub s'))
      | .hostEscape => .hostEscape
    | some .tt => .typeError t

/-- The structurize loop over all raw permission strings, threading the
mutated this.permissions object; a TypeError aborts the loop and a host
escape leaves the remaining behavior unmodelled. -/
def structurize : PTree → List String → BuildOut
  | t, [] => .ok t
  | t, p :: ps =>
    match insertBits t (jsSplitDot p) with
    | .ok t' => structurize t' ps
    | .typeError t' => .typeError t'
    | .hostEscape => .hostEscape

/-- The tree a raw permission list compiles to (the partial tree when the
loop throws; meaningful only when no insertion escaped into host objects). -/
def treeOf (ps : List String) : PTree :=
  match structurize [] ps with
  | .ok t => t
  | .typeError t => t
  | .hostEscape => []

/-- Whether the structurize loop completes without a TypeError or a host
escape. -/
def structurizeOk (ps : List String) : Bool :=
  match structurize [] ps with
  | .ok _ => true
  | .typeError _ => false
  | .hostEscape => false

/-- Outcome of the hasPermission segment walk: a returned boolean, the
strict-mode TypeError of applying the in operator to a primitive, or a
descent through an inherited Object.prototype member into a host object
(the walk continues outside the permission tree; not modelled). -/
inductive WalkOut where
  | val (b : Bool)
  | typeError
  | hostEscape
  deriving DecidableEq, Repr

/-- The segment walk of hasPermission: an own segment descends into its
value; a segment that is only inherited from Object.prototype makes path a
host value — the walk returns true when that was the last segment and
otherwise leaves the modelled tree (hostEscape); a segment that is neither
answers whether the star key is in the node; a segment mapped to the boolean
leaf ends the walk with true when it was the last segment, and otherwise the
next iteration applies the in operator to a primitive true, a TypeError. -/
def permWalk : PTree → List String → WalkOut
  | _, [] => .val true
  | t, b :: rest =>
    match plookup t b with
    | some .tt =>
      match rest with
      | [] => .val true
      | _ :: _ => .typeError
    | some (.sub s) => permWalk s rest
    | none =>
      if protoNames.contains b then
        match rest with
        | [] => .val true
        | _ :: _ => .hostEscape
      else .val (jsIn t "*")

/-- hasPermission at the level of an already-built permission tree. -/
def hasPermTree (t : PTree) (permission : String) : WalkOut :=
  permWalk t (jsSplitDot permission)

/-- The in-memory User instance: the single-user database view plus the two
lazily-populated caches this.groups and this.permissions. -/
structure UState where
  db : Db
  groupsCache : Option (List (Int × GroupEntry))
  permsCache : Option PTree

/-- Result of a stateful async method: a value with the mutated instance, a
propagated exception with the instance as mutated so far, fuel exhaustion of
the group expansion (the JS recursion would still be running), or an escape
into inherited Object.prototype host members whose continuation the model
does not determine. -/
inductive JsRes (α : Type) where
  | ok (a : α) (st : UState)
  | exn (st : UState)
  | spin
  | hostEscape

/-- The returned value of a call, when it returned and the model determines it. -/
def JsRes.val? : JsRes α → Option α
  | .ok a _ => some a
  | _ => none

/-- The instance state after a call that returned or threw. -/
def JsRes.state? : JsRes α → Option UState
  | .ok _ st => some st
  | .exn st => some st
  | .spin => none
  | .hostEscape => none

/-- User.getGroups: returns the cached map if present; otherwise assigns a
fresh map, runs the expansion (which mutates it incrementally), and leaves
the map in this.groups even when the expansion throws partway. -/
def getGroups (u : UState) (now : Int) (fuel : Nat) :
    JsRes (List (Int × GroupEntry)) :=
  match u.groupsCache with
  | some g => .ok g u
  | none =>
    match expandGroups u.db now fuel with
    | .done st => .ok st.groups { u with groupsCache := some st.groups }
    | .raised st => .exn { u with groupsCache := some st.groups }
    | .spin => .spin

/-- The active group ids collected by getPermissions from the resolved map,
in map iteration order. -/
def activeIds (m : List (Int × GroupEntry)) : List Int :=
  (m.filter fun p => p.2.user.active).map fun p => p.2.group.id

/-- User.getPermissions: returns the cached tree if present; otherwise
this.permissions is assigned the empty object first, the groups are resolved,
the permissions of the active groups (batched, in table order; SQLite allows
the empty IN list, yielding no rows) and the user's individual permissions
are collected, and the structurize loop builds the tree in place. The empty
or partial tree stays cached when anything throws. -/
def getPermissions (u : UState) (now : Int) (fuel : Nat) : JsRes PTree :=
  match u.permsCache with
  | some p => .ok p u
  | none =>
    match getGroups { u with permsCache := some [] } now fuel with
    | .spin => .spin
    | .hostEscape => .hostEscape
    | .exn u1 => .exn u1
    | .ok m u1 =>
      let ids := activeIds m
      let raw :=
        ((u1.db.groupPerms.filter fun p => ids.contains p.1).map fun p => p.2)
          ++ u1.db.userPerms
      match structurize [] raw with
      | .typeError t => .exn { u1 with permsCache := some t }
      | .hostEscape => .hostEscape
      | .ok t => .ok t { u1 with permsCache := some t }

/-- User.hasPermission: split the dotted path and walk the permission tree;
walking past a boolean leaf throws (strict-mode TypeError on the in
operator), and a walk that descends through an inherited Object.prototype
member into host objects is outside the model. -/
def hasPermission (u : UState) (now : Int) (fuel : Nat) (permission : String) :
    JsRes Bool :=
  match getPermissions u now fuel with
  | .spin => .spin
  | .hostEscape => .hostEscape
  | .exn u1 => .exn u1
  | .ok t u1 =>
    match permWalk t (jsSplitDot permission) with
    | .typeError => .exn u1
    | .hostEscape => .hostEscape
    | .val b => .ok b u1

/-- User.endGroupMembership (entered with a Group object): resolve the
groups, answer false when the map (direct and inherited entries alike) lacks
the group id, otherwise set the to column of the user's rows for that group
to now, drop the cached map and re-expand, and answer true. The permissions
cache is left untouched. -/
def endGroupMembership (u : UState) (g : GroupObj) (now : Int) (fuel : Nat) :
    JsRes Bool :=
  match getGroups u now fuel with
  | .spin => .spin
  | .hostEscape => .hostEscape
  | .exn u1 => .exn u1
  | .ok m u1 =>
    if mapHas m g.id then
      let db' := { u1.db with
        memberships := u1.db.memberships.map fun r =>
          if r.groupId == g.id then { r with timeTo := some now } else r }
      match getGroups ⟨db', none, u1.permsCache⟩ now fuel with
      | .spin => .spin
      | .hostEscape => .hostEscape
      | .exn u2 => .exn u2
      | .ok _ u2 => .ok true u2
    else .ok false u1

/-- Modelled from the spec: the stored delimited-text encoding of a
membership's ordered argument values, written by Group.addUser via
csv-stringify (group.js is not under src/). Plain argument strings are
joined by commas. -/
def encodeArgs (args : List String) : Option String :=
  some (String.intercalate "," args)

/-- Modelled from the spec: Group.addUser (group.js is not under src/) —
addToGroup is refused when the target group does not permit direct members,
otherwise a membership row is inserted and true is returned. -/
def addUserModel (g : GroupObj) (db : Db) (args : List String)
    (timeFrom : Int) (timeTo : Option Int) : Option Db :=
  if g.membersAllowed then
    some { db with
      memberships := db.memberships ++ [⟨g.id, timeFrom, timeTo, encodeArgs args⟩] }
  else none

/-- User.addToGroup (entered with a Group object): insert the membership via
Group.addUser (refusal returns false without mutation), then compute the
direct entry's active flag and rendered name, resolve the groups (a cache hit
returns the cached map unchanged), and patch the group's entry into that map
in place. Neither cache is invalidated. -/
def addToGroup (u : UState) (g : GroupObj) (args : List String)
    (timeFrom : Int) (timeTo : Option Int) (now : Int) (fuel : Nat) :
    JsRes (Option GroupObj) :=
  match addUserModel g u.db args timeFrom timeTo with
  | none => .ok none u
  | some db' =>
    let active := !(jsTruthy timeTo && jsLt timeTo now) && !(decide (timeFrom > now))
    let name := renderName g.nameBase g.nameDisplay args
    match getGroups { u with db := db' } now fuel with
    | .spin => .spin
    | .hostEscape => .hostEscape
    | .exn u1 => .exn u1
    | .ok m u1 =>
      let e : GroupEntry := ⟨g, ⟨args, some timeFrom, timeTo, active, true, none, name⟩⟩
      .ok (some g) { u1 with groupsCache := some (mapSet m g.id e) }

/-- Group A of the merge-law instance: child of B, window (10, 20). -/
def gMergeA : GroupRow := ⟨1, "A", none, true, some 10, false, false, none⟩

/-- Group C of the merge-law instance: child of B, window (5, null). -/
def gMergeC : GroupRow := ⟨2, "C", none, true, some 10, false, false, none⟩

/-- Group B of the merge-law instance: the common parent, not directly held. -/
def gMergeB : GroupRow := ⟨10, "B", none, false, none, false, false, none⟩

/-- Database of the merge-law instance: directly-held windows (10, 20) in A
and (5, null) in C, both children of B. -/
def dbMerge : Db :=
  ⟨[gMergeA, gMergeC, gMergeB], [⟨1, 10, some 20, none⟩, ⟨2, 5, none, none⟩], [], []⟩

/-- Database where group 3 is reached through two paths: held directly with
window (50, null) and inherited from child 4 with window (70, 90). -/
def dbTwoPath : Db :=
  ⟨[⟨3, "B1", none, true, none, false, false, none⟩,
    ⟨4, "C1", none, true, some 3, false, false, none⟩],
   [⟨3, 50, none, none⟩, ⟨4, 70, some 90, none⟩], [], []⟩

/-- The end-to-end scenario database: Board (id 5, no parent) held directly
with window (1000, null), Committee (id 7, parent Board) held directly with
window (2000, 3000). -/
def dbBoard : Db :=
  ⟨[⟨5, "Board", none, true, none, false, false, none⟩,
    ⟨7, "Committee", none, true, some 5, false, false, none⟩],
   [⟨5, 1000, none, none⟩, ⟨7, 2000, some 3000, none⟩], [], []⟩

/-- A two-group parent cycle (1 and 2 are each other's parent) with one
direct membership in group 1. -/
def dbCyc : Db :=
  ⟨[⟨1, "A", none, true, some 2, false, false, none⟩,
    ⟨2, "B", none, true, some 1, false, false, none⟩],
   [⟨1, 0, none, none⟩], [], []⟩

/-- One membership whose stored user args are malformed (unterminated quote). -/
def dbArgsBad : Db :=
  ⟨[⟨1, "A", none, true, none, false, false, none⟩],
   [⟨1, 10, none, some "\"x"⟩], [], []⟩

/-- One membership whose stored user args column is NULL. -/
def dbArgsNull : Db :=
  ⟨[⟨1, "A", none, true, none, false, false, none⟩],
   [⟨1, 10, none, none⟩], [], []⟩

/-- Two memberships: group 1 parses fine, group 2 has malformed stored args,
so the expansion throws after having inserted group 1 into the map. -/
def dbPartial : Db :=
  ⟨[⟨1, "A", none, false, none, false, false, none⟩,
    ⟨2, "B", none, false, none, false, false, none⟩],
   [⟨1, 10, none, none⟩, ⟨2, 20, none, some "\"x"⟩], [], []⟩

/-- A user with no memberships but one individual permission row. -/
def dbIndiv : Db := ⟨[], [], [], ["x"]⟩

/-- A user with no memberships and no individual permission rows (the groups
and their permissions exist but are unreachable). -/
def dbNoMem : Db :=
  ⟨[⟨1, "A", none, true, none, false, false, none⟩], [], [(1, "x")], []⟩

/-- Board/Committee with a single direct Board membership and a Board
permission, for the cache-staleness scenario. -/
def dbStale : Db :=
  ⟨[⟨5, "Board", none, true, none, false, false, none⟩,
    ⟨7, "Committee", none, true, some 5, false, false, none⟩],
   [⟨5, 1000, none, none⟩], [(5, "adm")], []⟩

/-- The Group object for Board as addToGroup/endGroupMembership receive it. -/
def objBoard : GroupObj := ⟨5, "Board", none, true, none, false, false, []⟩

/-- The Group object for Committee. -/
def objCom : GroupObj := ⟨7, "Committee", none, true, some 5, false, false, []⟩

/-- Fresh user instance over dbStale. -/
def uStale0 : UState := ⟨dbStale, none, none⟩

/-- State after a first hasPermission call populated both caches. -/
def uStale1 : UState := (hasPermission uStale0 2000 5 "adm").state?.getD uStale0

/-- State after endGroupMembership of Board at time 4000. -/
def uStale2 : UState := (endGroupMembership uStale1 objBoard 4000 5).state?.getD uStale0

/-- Board/Committee with no memberships at all, for the addToGroup patch
scenario. -/
def dbAddTo : Db :=
  ⟨[⟨5, "Board", none, true, none, false, false, none⟩,
    ⟨7, "Committee", none, true, some 5, false, false, none⟩], [], [], []⟩

/-- Fresh user instance over dbAddTo. -/
def uAdd0 : UState := ⟨dbAddTo, none, none⟩

/-- State after a first getGroups cached the (empty) group map. -/
def uAdd1 : UState := (getGroups uAdd0 100 5).state?.getD uAdd0

/-- State after addToGroup of Committee on the already-cached instance. -/
def uAdd2 : UState := (addToGroup uAdd1 objCom [] 100 none 100 5).state?.getD uAdd0

/-- Committee alone (no direct Board row): Board is reached only as an
inherited ancestor. -/
def dbInherit : Db :=
  ⟨[⟨5, "Board", none, true, none, false, false, none⟩,
    ⟨7, "Committee", none, true, some 5, false, false, none⟩],
   [⟨7, 2000, some 3000, none⟩], [], []⟩

/-- One active group granting the wildcard permission reports.* . -/
def dbWildcard : Db :=
  ⟨[⟨1, "G", none, true, none, false, false, none⟩],
   [⟨1, 0, none, none⟩], [(1, "reports.*")], []⟩

/-- Fresh user instance over dbPartial. -/
def uPartial0 : UState := ⟨dbPartial, none, none⟩

/-- State after the first (throwing) getGroups over dbPartial. -/
def uPartial1 : UState := (getGroups uPartial0 100 5).state?.getD uPartial0

/-- The groups-table row for cycle member 1, as fetched for a parent id. -/
def arowCycA : JoinRow :=
  ⟨1, none, none, "A", none, true, some 2, false, false, none, none, false⟩

/-- The groups-table row for cycle member 2, as fetched for a parent id. -/
def arowCycB : JoinRow :=
  ⟨2, none, none, "B", none, true, some 1, false, false, none, none, false⟩

/-- The level-0 join row of the single direct membership over dbCyc. -/
def drowCycA : JoinRow :=
  directRow ⟨1, "A", none, true, some 2, false, false, none⟩ ⟨1, 0, none, none⟩

/-- C2: evaluation of the end-to-end Board/Committee scenario at now = 2500.
The code resolves Committee to window (2000, 3000), active — as the claim
says — but the ancestor pass overwrites Board's directly-held entry, so Board
ends with window (2000, 3000), direct false and children [7], not the claimed
(1000, null) direct window: the merge computed at lines 374-383 is discarded
by the parent branch at lines 388-397 and the set at line 420 replaces the
direct entry. -/
theorem c2_board_overwrite_eval :
    (expandGroups dbBoard 2500 5).isDone = true
    ∧ (mapGet? (expandGroups dbBoard 2500 5).groupsOf 5).map
        (fun e => (e.user.timeFrom, e.user.timeTo, e.user.active,
                   e.user.direct, e.user.children))
      = some (some 2000, some 3000, true, false, some [7])
    ∧ (mapGet? (expandGroups dbBoard 2500 5).groupsOf 7).map
        (fun e => (e.user.timeFrom, e.user.timeTo, e.user.active))
      = some (some 2000, some 3000, true) := by
  refine ⟨by decide, by decide, by decide⟩

/-- C3 counterexample: with the aggregated permission set exactly
reports.export, the claim says hasPermission("reports") is false and
hasPermission("reports.export.csv") is true; on the code the former walk
stays inside the tree and returns true, and the latter walks past the
boolean leaf and throws a TypeError instead of returning a boolean. -/
theorem c3_exact_leaf_cex :
    hasPermTree (treeOf ["reports.export"]) "reports" = .val true
    ∧ hasPermTree (treeOf ["reports.export"]) "reports.export.csv" = .typeError := by
  refine ⟨by decide, by decide⟩

/-- C3 amended: granting exactly reports.export makes
hasPermission("reports.export") true, makes hasPermission("reports") also
true (every proper prefix of a grant keeps the walk inside the tree), and
makes hasPermission("reports.export.csv") throw a strict-mode TypeError (the
walk reaches the boolean leaf with a segment left and applies the in
operator to a primitive) rather than return a boolean. -/
theorem c3_exact_leaf_amended :
    structurizeOk ["reports.export"] = true
    ∧ hasPermTree (treeOf ["reports.export"]) "reports.export" = .val true
    ∧ hasPermTree (treeOf ["reports.export"]) "reports" = .val true
    ∧ hasPermTree (treeOf ["reports.export"]) "reports.export.csv" = .typeError := by
  refine ⟨by decide, by decide, by decide, by decide⟩

/-- C4: the wildcard law. Granting reports.* makes hasPermission true for
reports.export and reports.export.csv and false for other.export, both at
the level of the compiled tree and through the full pipeline (an active
group granting reports.*). -/
theorem c4_wildcard_law :
    hasPermTree (treeOf ["reports.*"]) "reports.export" = .val true
    ∧ hasPermTree (treeOf ["reports.*"]) "reports.export.csv" = .val true
    ∧ hasPermTree (treeOf ["reports.*"]) "other.export" = .val false
    ∧ (hasPermission ⟨dbWildcard, none, none⟩ 100 5 "reports.export").val?
      = some true
    ∧ (hasPermission ⟨dbWildcard, none, none⟩ 100 5 "reports.export.csv").val?
      = some true
    ∧ (hasPermission ⟨dbWildcard, none, none⟩ 100 5 "other.export").val?
      = some false := by
  refine ⟨by decide, by decide, by decide, by decide, by decide, by decide⟩

/-- C5 counterexample: a user with no memberships but one individual
permission row x has hasPermission("x") = true, so the claim that every user
without memberships gets false for every dotted path fails on the code
(individual grants are aggregated independently of group membership). -/
theorem c5_individual_grant_cex :
    dbIndiv.memberships = []
    ∧ (hasPermission ⟨dbIndiv, none, none⟩ 0 5 "x").val? = some true := by
  refine ⟨by decide, by decide⟩

/-- C7: evaluation of both mutation paths at concrete inputs. A first
hasPermission populates both caches; endGroupMembership ends the Board
membership (row updated to to = 4000) and re-expands the group map but
leaves this.permissions untouched, so a later hasPermission at now = 9999
still answers true from the stale tree while a fresh instance over the same
database answers false. addToGroup on an instance with a cached (empty)
group map patches the new Committee entry into the cached map in place:
the inherited Board ancestor is absent from the cache although a full
re-expansion of the same database contains it. -/
theorem c7_stale_cache_eval :
    (hasPermission uStale0 2000 5 "adm").val? = some true
    ∧ (endGroupMembership uStale1 objBoard 4000 5).val? = some true
    ∧ uStale2.db.memberships = [⟨5, 1000, some 4000, none⟩]
    ∧ uStale2.permsCache = uStale1.permsCache
    ∧ (hasPermission uStale2 9999 5 "adm").val? = some true
    ∧ (hasPermission ⟨uStale2.db, none, none⟩ 9999 5 "adm").val? = some false
    ∧ uAdd1.groupsCache = some []
    ∧ (addToGroup uAdd1 objCom [] 100 none 100 5).val? = some (some objCom)
    ∧ (uAdd2.groupsCache.map fun m => (mapHas m 7, mapHas m 5))
      = some (true, false)
    ∧ ((getGroups ⟨uAdd2.db, none, none⟩ 100 5).val?.map
        fun m => (mapHas m 7, mapHas m 5)) = some (true, true) := by
  refine ⟨by decide, by decide, by decide, rfl, by decide, by decide, rfl,
    by decide, by decide, by decide⟩

/-- C8 counterexample: a membership row whose stored args are an unterminated
quoted field makes csvParse reject and the whole expansion throw, so
resolution does fail on malformed argument text instead of degrading the row
to an empty argument list. -/
theorem c8_malformed_args_cex :
    (expandGroups dbArgsBad 100 5).isRaised = true
    ∧ (getGroups ⟨dbArgsBad, none, none⟩ 100 5).val? = none := by
  refine ⟨by decide, by decide⟩

/-- C8 amended: only a missing (NULL) stored encoding degrades to an empty
argument list (the row completes with args = []); genuinely malformed
argument text (an unterminated quoted field) makes csvParse reject, which
getGroups awaits without a try/catch, failing the whole resolution. -/
theorem c8_args_amended :
    (expandGroups dbArgsNull 100 5).isDone = true
    ∧ ((mapGet? (expandGroups dbArgsNull 100 5).groupsOf 1).map
        fun e => e.user.args) = some []
    ∧ (expandGroups dbArgsBad 100 5).isRaised = true := by
  refine ⟨by decide, by decide, by decide⟩

/-- C9 counterexample: over dbPartial the first getGroups throws partway
(group 2's stored args are malformed), yet the cache is already written: the
instance holds a partially-filled map containing group 1 and lacking group 2,
contradicting the claim that the cache remains unwritten unless an expansion
fully succeeds. -/
theorem c9_partial_cache_cex :
    (getGroups uPartial0 100 5).val? = none
    ∧ (getGroups uPartial0 100 5).state?.isSome = true
    ∧ (uPartial1.groupsCache.map fun m => (mapHas m 1, mapHas m 2))
      = some (true, false) := by
  refine ⟨by decide, by decide, by decide⟩

/-- C9 amended: this.groups is assigned before the expansion and written
incrementally, so when the expansion throws partway the partially-filled map
stays cached, and a later getGroups call returns that partial structure
without re-running anything (here: with zero fuel, and with the instance
state unchanged). -/
theorem c9_partial_cache_amended :
    (getGroups uPartial0 100 5).val? = none
    ∧ (getGroups uPartial0 100 5).state? = some uPartial1
    ∧ ((getGroups uPartial1 100 0).val?.map fun m => (mapHas m 1, mapHas m 2))
      = some (true, false)
    ∧ (getGroups uPartial1 100 0).state? = some uPartial1 := by
  refine ⟨by decide, rfl, by decide, rfl⟩

/-- Processing an empty row list at any fuel completes with the state unchanged. -/
lemma handleRows_nil (dbG : List GroupRow) (now : Int) (fuel : Nat) (st : ExpState) :
    handleRows dbG now fuel st [] = .done st := by
  cases fuel <;> simp [handleRows, processRows]

/-- A user with no membership rows joins to no level-0 rows. -/
lemma joinRows_nil (db : Db) (h : db.memberships = []) : joinRows db = [] := by
  simp [joinRows, h]

/-- The dot-split of any string is nonempty. -/
lemma splitDotGo_ne_nil (cs acc : List Char) : splitDotGo cs acc ≠ [] := by
  induction cs generalizing acc with
  | nil => simp [splitDotGo]
  | cons c cs ih => simp only [splitDotGo]; split <;> simp [ih]

/-- C5 amended: for a user with no membership rows and no individual
permission rows, getGroups resolves to the empty map, and hasPermission
returns false for every dotted path whose first segment is not a member name
inherited from Object.prototype; for a path whose first segment is such a
name, the in operator finds the inherited member and the walk does not
answer false — hasPermission("toString") returns true (deeper such paths
descend into host objects outside the permission tree). -/
theorem c5_no_membership_amended (db : Db) (h1 : db.memberships = [])
    (h2 : db.userPerms = []) (now : Int) (fuel : Nat) (path : String) :
    (getGroups ⟨db, none, none⟩ now fuel).val? = some []
    ∧ (∀ b bs, jsSplitDot path = b :: bs → b ∉ protoNames →
        (hasPermission ⟨db, none, none⟩ now fuel path).val? = some false)
    ∧ (hasPermission ⟨db, none, none⟩ now fuel "toString").val? = some true := by
  have hexp : expandGroups db now fuel = .done ⟨[], []⟩ := by
    rw [expandGroups, joinRows_nil db h1, handleRows_nil]
  refine ⟨by simp [getGroups, hexp, JsRes.val?], ?_, ?_⟩
  · intro b bs hbs hb
    simp [hasPermission, getPermissions, getGroups, hexp, activeIds, h2,
      structurize, hbs, permWalk, plookup, pHasKey, jsIn, hb, JsRes.val?,
      show ("*" : String) ∉ protoNames from by decide]
  · simp [hasPermission, getPermissions, getGroups, hexp, activeIds, h2,
      structurize, permWalk, plookup, JsRes.val?,
      show jsSplitDot "toString" = ["toString"] from rfl,
      show ("toString" : String) ∈ protoNames from by decide]

/-- C5 amended witness at dbNoMem: the empty map, a false answer on a path
clear of Object.prototype names, and the inherited true on toString. -/
theorem c5_no_membership_amended_witness :
    (getGroups ⟨dbNoMem, none, none⟩ 0 5).val? = some []
    ∧ (hasPermission ⟨dbNoMem, none, none⟩ 0 5 "users.view").val? = some false
    ∧ (hasPermission ⟨dbNoMem, none, none⟩ 0 5 "toString").val? = some true := by
  have h := c5_no_membership_amended dbNoMem rfl rfl 0 5 "users.view"
  exact ⟨h.1, h.2.1 "users" ["view"] rfl (by decide), h.2.2⟩

lemma parentFrom_min (l : List UserSide) (h1 : l ≠ [])
    (h2 : ∀ c ∈ l, c.timeFrom.isSome) :
    ∃ v, parentFrom l = some v ∧ some v ∈ l.map (fun c => c.timeFrom)
      ∧ ∀ c ∈ l, ∀ w, c.timeFrom = some w → v ≤ w := by
  induction l with
  | nil => exact absurd rfl h1
  | cons c cs ih =>
    obtain ⟨a, ha⟩ := Option.isSome_iff_exists.mp (h2 c (by simp))
    cases cs with
    | nil =>
      refine ⟨a, by simp [parentFrom, ha], by simp [ha], ?_⟩
      intro c0 hc0 w hw
      simp at hc0
      subst hc0
      rw [ha] at hw
      simp at hw
      omega
    | cons c' cs' =>
      obtain ⟨v', hv', hmem', hmin'⟩ := ih (by simp)
        (fun x hx => h2 x (List.mem_cons_of_mem _ hx))
      refine ⟨min a v', ?_, ?_, ?_⟩
      · simp [parentFrom, ha, hv', jsMin]
      · rcases min_choice a v' with h | h <;> rw [h]
        · simp [ha]
        · simp only [List.map_cons]
          exact List.mem_cons_of_mem _ hmem'
      · intro c0 hc0 w hw
        rcases List.mem_cons.mp hc0 with h | h
        · subst h
          rw [ha] at hw
          have : a = w := by injection hw
          subst this
          exact min_le_left _ _
        · exact le_trans (min_le_right _ _) (hmin' c0 h w hw)

lemma parentTo_none (l : List UserSide)
    (h : ∃ c ∈ l, jsTruthy c.timeTo = false) : parentTo l = none := by
  induction l with
  | nil => simp at h
  | cons c cs ih =>
    cases cs with
    | nil =>
      obtain ⟨c0, hc0, hf⟩ := h
      simp at hc0
      subst hc0
      simp [parentTo, hf]
    | cons c' cs' =>
      obtain ⟨c0, hc0, hf⟩ := h
      rcases List.mem_cons.mp hc0 with he | he
      · subst he
        simp only [parentTo]
        cases parentTo (c' :: cs') <;> simp [hf]
      · have := ih ⟨c0, he, hf⟩
        simp only [parentTo] at this ⊢
        rw [this]

lemma parentTo_max (l : List UserSide) (h1 : l ≠ [])
    (h2 : ∀ c ∈ l, jsTruthy c.timeTo = true) :
    ∃ v, parentTo l = some v ∧ some v ∈ l.map (fun c => c.timeTo)
      ∧ ∀ c ∈ l, ∀ w, c.timeTo = some w → w ≤ v := by
  induction l with
  | nil => exact absurd rfl h1
  | cons c cs ih =>
    have htc := h2 c (by simp)
    obtain ⟨a, ha⟩ : ∃ a, c.timeTo = some a := by
      cases hc : c.timeTo with
      | none => rw [hc] at htc; simp [jsTruthy] at htc
      | some a => exact ⟨a, rfl⟩
    rw [ha] at htc
    cases cs with
    | nil =>
      refine ⟨a, by simp [parentTo, htc, ha], by simp [ha], ?_⟩
      intro c0 hc0 w hw
      simp at hc0
      subst hc0
      rw [ha] at hw
      simp at hw
      omega
    | cons c' cs' =>
      obtain ⟨v', hv', hmem', hmax'⟩ := ih (by simp)
        (fun x hx => h2 x (List.mem_cons_of_mem _ hx))
      refine ⟨max (c.timeTo.getD 0) v', ?_, ?_, ?_⟩
      · simp only [parentTo, hv', ha, htc, if_true]
      · rw [ha]
        simp only [Option.getD_some]
        rcases max_choice a v' with h | h <;> rw [h]
        · simp [ha]
        · simp only [List.map_cons]
          exact List.mem_cons_of_mem _ hmem'
      · intro c0 hc0 w hw
        rcases List.mem_cons.mp hc0 with he | he
        · subst he
          rw [ha] at hw ⊢
          have : a = w := by injection hw
          subst this
          simp only [Option.getD_some]
          exact le_max_left _ _
        · exact le_trans (hmax' c0 he w hw) (le_max_right _ _)

/-- A row whose argument columns are NULL can always be processed. -/
lemma processRow_ok_of_noArgs (now : Int) (st : ExpState) (r : JoinRow)
    (hu : r.userArgs = none) (hg : r.groupArgs = none) :
    ∃ st', processRow now st r = .ok st' := by
  have h : csvParse "" = Except.ok [] := rfl
  simp only [processRow, hu, hg, Option.getD_none, h]
  exact ⟨_, rfl⟩

/-- Processing a single row with NULL argument columns and a nonzero parent
pointer collects exactly that parent as the next lookup. -/
lemma processRows_single_parent (now : Int) (st : ExpState) (r : JoinRow)
    (p : Int) (hu : r.userArgs = none) (hg : r.groupArgs = none)
    (hp : r.parent = some p) (hnz : p ≠ 0) :
    ∃ st', processRows now st [r] = .ok (st', [p]) := by
  obtain ⟨st', h⟩ := processRow_ok_of_noArgs now st r hu hg
  refine ⟨st', ?_⟩
  simp [processRows, h, hp, jsTruthy, hnz]

/-- Over the cyclic database, a level consisting of either cycle member spins
for every fuel: each member unconditionally pushes the other as the next
lookup, so the worklist never empties. -/
lemma cyc_spin (fuel : Nat) :
    (∀ st, handleRows dbCyc.groups 0 fuel st [arowCycA] = .spin)
    ∧ (∀ st, handleRows dbCyc.groups 0 fuel st [arowCycB] = .spin) := by
  induction fuel with
  | zero =>
    constructor <;> intro st
    · obtain ⟨st', h⟩ := processRows_single_parent 0 st arowCycA 2 rfl rfl rfl
        (by decide)
      simp [handleRows, h]
    · obtain ⟨st', h⟩ := processRows_single_parent 0 st arowCycB 1 rfl rfl rfl
        (by decide)
      simp [handleRows, h]
  | succ f ih =>
    constructor <;> intro st
    · obtain ⟨st', h⟩ := processRows_single_parent 0 st arowCycA 2 rfl rfl rfl
        (by decide)
      have hf : fetchGroups dbCyc.groups [(2 : Int)] = [arowCycB] := rfl
      simp only [handleRows, h]
      simpa [hf] using ih.2 st'
    · obtain ⟨st', h⟩ := processRows_single_parent 0 st arowCycB 1 rfl rfl rfl
        (by decide)
      have hf : fetchGroups dbCyc.groups [(1 : Int)] = [arowCycA] := rfl
      simp only [handleRows, h]
      simpa [hf] using ih.1 st'

/-- C6 counterexample: over the two-group parent cycle reachable from one
direct membership, getGroups does not terminate: the recursion spins for
every fuel, because row.parent is pushed unconditionally with no visited-set
per expansion. -/
theorem c6_cycle_divergence_cex : ¬ Terminates dbCyc 0 := by
  rintro ⟨fuel, h⟩
  apply h
  have hjoin : joinRows dbCyc = [drowCycA] := rfl
  rw [expandGroups, hjoin]
  obtain ⟨st', hp⟩ := processRows_single_parent 0 ⟨[], []⟩ drowCycA 2 rfl rfl rfl
    (by decide)
  cases fuel with
  | zero => simp [handleRows, hp]
  | succ f =>
    have hf : fetchGroups dbCyc.groups [(2 : Int)] = [arowCycB] := rfl
    simp only [handleRows, hp]
    simpa [hf] using (cyc_spin f).2 st'

/-- Every id collected into nextLookup comes from a processed row with that
truthy parent pointer. -/
lemma processRows_ok_next_mem (now : Int) :
    ∀ (rows : List JoinRow) (st st' : ExpState) (next : List Int),
      processRows now st rows = .ok (st', next) →
      ∀ p ∈ next, ∃ r ∈ rows, r.parent = some p ∧ jsTruthy r.parent = true := by
  intro rows
  induction rows with
  | nil =>
    intro st st' next h p hp
    simp only [processRows, Except.ok.injEq, Prod.mk.injEq] at h
    rw [← h.2] at hp
    simp at hp
  | cons r rs ih =>
    intro st st' next h p hp
    simp only [processRows] at h
    cases hr : processRow now st r with
    | error e =>
      simp only [hr] at h
      simp at h
    | ok st1 =>
      simp only [hr] at h
      cases hrs : processRows now st1 rs with
      | error e =>
        simp only [hrs] at h
        simp at h
      | ok pr =>
        obtain ⟨st2, nx⟩ := pr
        simp only [hrs, Except.ok.injEq, Prod.mk.injEq] at h
        rw [← h.2] at hp
        rcases List.mem_append.mp hp with hin | hin
        · by_cases ht : jsTruthy r.parent = true
          · rw [if_pos ht] at hin
            simp only [List.mem_singleton] at hin
            cases hq : r.parent with
            | none => rw [hq] at ht; simp [jsTruthy] at ht
            | some q =>
              rw [hq] at hin
              simp at hin
              subst hin
              exact ⟨r, by simp, hq, ht⟩
          · rw [if_neg ht] at hin
            simp at hin
        · obtain ⟨r', hr', hrp, hrt⟩ := ih st1 st2 nx hrs p hin
          exact ⟨r', List.mem_cons_of_mem _ hr', hrp, hrt⟩

/-- A row fetched for a parent-id lookup is a groups-table row whose id was
looked up. -/
lemma fetchGroups_mem (dbG : List GroupRow) (ids : List Int) (r : JoinRow)
    (h : r ∈ fetchGroups dbG ids) :
    ∃ g ∈ dbG, g.id ∈ ids ∧ r.id = g.id ∧ r.parent = g.parent := by
  simp only [fetchGroups, List.mem_map, List.mem_filter] at h
  obtain ⟨g, ⟨hg, hid⟩, hr⟩ := h
  subst hr
  exact ⟨g, hg, by simpa using hid, rfl, rfl⟩

/-- A level-0 join row carries the id and parent of a groups-table row. -/
lemma joinRows_mem (db : Db) (r : JoinRow) (h : r ∈ joinRows db) :
    ∃ g ∈ db.groups, r.id = g.id ∧ r.parent = g.parent := by
  simp only [joinRows, List.mem_filterMap] at h
  obtain ⟨m, _, hr⟩ := h
  cases hfind : db.groups.find? (fun g => g.id == m.groupId) with
  | none => rw [hfind] at hr; simp at hr
  | some g =>
    rw [hfind] at hr
    simp at hr
    subst hr
    exact ⟨g, List.mem_of_find?_eq_some hfind, rfl, rfl⟩

/-- Fuel bound for the expansion: when a rank decreases strictly along every
truthy parent edge, a level whose rows all rank below B finishes within any
fuel of at least B (each level's lookups rank strictly lower). -/
lemma handleRows_no_spin (dbG : List GroupRow) (now : Int) (rk : Int → Nat)
    (H : ∀ g ∈ dbG, jsTruthy g.parent = true → rk (g.parent.getD 0) < rk g.id) :
    ∀ B fuel, B ≤ fuel → ∀ (st : ExpState) (rows : List JoinRow),
      (∀ r ∈ rows, ∃ g ∈ dbG, r.id = g.id ∧ r.parent = g.parent) →
      (∀ r ∈ rows, rk r.id < B) →
      handleRows dbG now fuel st rows ≠ .spin := by
  intro B
  induction B with
  | zero =>
    intro fuel _ st rows _ hbound
    have hnil : rows = [] := by
      cases rows with
      | nil => rfl
      | cons r rs => exact absurd (hbound r (by simp)) (by omega)
    subst hnil
    rw [handleRows_nil]
    simp
  | succ B ih =>
    intro fuel hBf st rows hdb hbound
    cases fuel with
    | zero => exact absurd hBf (by omega)
    | succ f =>
      cases hp : processRows now st rows with
      | error st1 => simp [handleRows, hp]
      | ok pr =>
        obtain ⟨st1, next⟩ := pr
        by_cases hemp : next = []
        · subst hemp
          simp [handleRows, hp]
        · have hstep : handleRows dbG now (f + 1) st rows
              = handleRows dbG now f st1 (fetchGroups dbG next) := by
            simp [handleRows, hp, hemp]
          rw [hstep]
          apply ih f (by omega) st1
          · intro r hr
            obtain ⟨g, hg, _, hidr, hpar⟩ := fetchGroups_mem dbG next r hr
            exact ⟨g, hg, hidr, hpar⟩
          · intro r hr
            obtain ⟨g, hg, hgid, hidr, hpar⟩ := fetchGroups_mem dbG next r hr
            obtain ⟨r0, hr0, hr0p, hr0t⟩ :=
              processRows_ok_next_mem now rows st st1 next hp g.id hgid
            obtain ⟨g0, hg0, hid0, hpar0⟩ := hdb r0 hr0
            have ht0 : jsTruthy g0.parent = true := by rw [← hpar0]; exact hr0t
            have hlt := H g0 hg0 ht0
            rw [← hpar0, hr0p] at hlt
            simp only [Option.getD_some] at hlt
            have h2 := hbound r0 hr0
            rw [hid0] at h2
            rw [hidr]
            omega

/-- An element of a list of naturals is at most the foldr max over it. -/
lemma le_foldr_max (l : List Nat) (x : Nat) (h : x ∈ l) : x ≤ l.foldr max 0 := by
  induction l with
  | nil => simp at h
  | cons a as ih =>
    rcases List.mem_cons.mp h with he | he
    · subst he
      exact le_max_left _ _
    · exact le_trans (ih he) (le_max_right _ _)

/-- C6 amended: getGroups terminates on every database whose parent pointers
admit a rank that strictly decreases along truthy parent edges (in
particular every acyclic bounded-depth hierarchy); the cyclic case diverges
instead of being handled as a merge. -/
theorem c6_ranked_termination (db : Db) (now : Int) (rk : Int → Nat)
    (H : ∀ g ∈ db.groups, jsTruthy g.parent = true →
      rk (g.parent.getD 0) < rk g.id) :
    Terminates db now := by
  refine ⟨((joinRows db).map fun r => rk r.id).foldr max 0 + 1, ?_⟩
  rw [expandGroups]
  apply handleRows_no_spin db.groups now rk H _ _ (le_refl _)
  · intro r hr
    exact joinRows_mem db r hr
  · intro r hr
    have hm : rk r.id ∈ (joinRows db).map fun r => rk r.id :=
      List.mem_map_of_mem _ hr
    have := le_foldr_max _ _ hm
    omega

/-- C6 amended witness: the Board/Committee hierarchy ranked by depth. -/
theorem c6_ranked_termination_witness :
    (∀ g ∈ dbBoard.groups, jsTruthy g.parent = true →
      (fun i : Int => if i = 5 then 0 else 1) (g.parent.getD 0)
        < (fun i : Int => if i = 5 then 0 else 1) g.id)
    ∧ Terminates dbBoard 2500 :=
  ⟨by decide, c6_ranked_termination dbBoard 2500
    (fun i : Int => if i = 5 then 0 else 1) (by decide)⟩

/-- Unfolding of getGroups on an instance with an unpopulated group cache. -/
lemma getGroups_uncached (db0 : Db) (pc : Option PTree) (now : Int) (fuel : Nat) :
    getGroups ⟨db0, none, pc⟩ now fuel
      = (match expandGroups db0 now fuel with
         | .done st => .ok st.groups ⟨db0, some st.groups, pc⟩
         | .raised st => .exn ⟨db0, some st.groups, pc⟩
         | .spin => .spin) := rfl

/-- C10: for a user whose resolved map contains a group only as an inherited
ancestor (no stored membership row links the user to it), endGroupMembership
returns true — the has-check accepts inherited entries — while the UPDATE
matches no rows, so every stored membership row is left unchanged. -/
theorem c10_inherited_end_noop (db : Db) (g : GroupObj) (now : Int) (fuel : Nat)
    (h1 : ∀ r ∈ db.memberships, r.groupId ≠ g.id)
    (h2 : ((getGroups ⟨db, none, none⟩ now fuel).val?.map
            fun m => mapHas m g.id) = some true) :
    (endGroupMembership ⟨db, none, none⟩ g now fuel).val? = some true
    ∧ ((endGroupMembership ⟨db, none, none⟩ g now fuel).state?.map
        fun u => u.db.memberships) = some db.memberships := by
  cases hrun : expandGroups db now fuel with
  | raised st =>
    rw [getGroups_uncached, hrun] at h2
    simp [JsRes.val?] at h2
  | spin =>
    rw [getGroups_uncached, hrun] at h2
    simp [JsRes.val?] at h2
  | done st =>
    rw [getGroups_uncached, hrun] at h2
    simp only [JsRes.val?, Option.map_some', Option.some.injEq] at h2
    have hmap : db.memberships.map
        (fun r => if r.groupId == g.id then { r with timeTo := some now } else r)
        = db.memberships := by
      conv_rhs => rw [← List.map_id db.memberships]
      apply List.map_congr_left
      intro r hr
      have hne := h1 r hr
      simp [hne]
    have hdbeq : ({ db with memberships := (db.memberships.map (fun r =>
          if r.groupId == g.id then { r with timeTo := some now } else r)) } : Db)
        = db := by
      rw [hmap]
    have hend : endGroupMembership ⟨db, none, none⟩ g now fuel
        = .ok true ⟨db, some st.groups, none⟩ := by
      simp only [endGroupMembership, getGroups_uncached, hrun, h2, if_true]
      rw [hdbeq]
      rw [hrun]
    rw [hend]
    simp [JsRes.val?, JsRes.state?]

/-- C10 witness: over dbInherit (a single Committee membership, Board only
inherited) ending the Board membership answers true and the stored rows are
unchanged. -/
theorem c10_inherited_end_noop_witness :
    (endGroupMembership ⟨dbInherit, none, none⟩ objBoard 2500 5).val? = some true
    ∧ ((endGroupMembership ⟨dbInherit, none, none⟩ objBoard 2500 5).state?.map
        fun u => u.db.memberships) = some dbInherit.memberships :=
  c10_inherited_end_noop dbInherit objBoard 2500 5 (by decide) (by decide)

/-- C1 counterexample: in dbTwoPath, group 3 is reached through two
contributing paths — a direct membership with window (50, null) and an
inherited path through child 4 with window (70, 90) — yet its resolved
window is (70, 90): the effective timeFrom is not the minimum 50 of the
contributing timeFrom values and the effective timeTo is not null although a
contributing path has no expiry (the overwrite discards the direct path). -/
theorem c1_min_merge_cex :
    ((mapGet? (expandGroups dbTwoPath 80 5).groupsOf 3).map
      fun e => (e.user.timeFrom, e.user.timeTo)) = some (some 70, some 90)
    ∧ (70 : Int) ≠ min 50 70 := by
  refine ⟨by decide, by decide⟩

/-- C1 amended: the min/max-or-null merge law holds for the synthesized
parent windows (the window a parent receives is computed from the pairings
children only): timeFrom is the minimum of the children's timeFrom values,
timeTo is the maximum when every child has a truthy timeTo and null when any
child does not. Groups also held directly have their direct window
overwritten by this synthesis instead of merged. In the instance with
directly-held windows (10, 20) in child A of B and (5, null) in child C of
B, the synthesized entry for B has window (5, null) and is active exactly
when now is at least 5. -/
theorem c1_parent_window_merge (l : List UserSide) (h1 : l ≠ [])
    (h2 : ∀ c ∈ l, c.timeFrom.isSome) (now : Int) :
    (∃ v, parentFrom l = some v ∧ some v ∈ l.map (fun c => c.timeFrom)
       ∧ ∀ c ∈ l, ∀ w, c.timeFrom = some w → v ≤ w)
    ∧ ((∀ c ∈ l, jsTruthy c.timeTo = true) →
        ∃ v, parentTo l = some v ∧ some v ∈ l.map (fun c => c.timeTo)
          ∧ ∀ c ∈ l, ∀ w, c.timeTo = some w → w ≤ v)
    ∧ ((∃ c ∈ l, jsTruthy c.timeTo = false) → parentTo l = none)
    ∧ ((mapGet? (expandGroups dbMerge now 5).groupsOf 10).map
         fun e => (e.user.timeFrom, e.user.timeTo)) = some (some 5, none)
    ∧ ((((mapGet? (expandGroups dbMerge now 5).groupsOf 10).map
         fun e => e.user.active) = some true) ↔ 5 ≤ now) := by
  refine ⟨parentFrom_min l h1 h2, fun h => parentTo_max l h1 h,
    parentTo_none l, rfl, ?_⟩
  rw [show ((mapGet? (expandGroups dbMerge now 5).groupsOf 10).map
      fun e => e.user.active)
    = some (!(decide ((5:Int) > now)) && true) from rfl]
  simp

/-- C1 amended witness: the two child windows (10, 20) and (5, null) of the
merge instance. -/
theorem c1_parent_window_merge_witness :
    parentTo [⟨[], some 10, some 20, true, true, none, "A"⟩,
              ⟨[], some 5, none, true, true, none, "C"⟩] = none
    ∧ (∃ v, parentFrom [⟨[], some 10, some 20, true, true, none, "A"⟩,
              ⟨[], some 5, none, true, true, none, "C"⟩] = some v
        ∧ v = 5)
    ∧ ((mapGet? (expandGroups dbMerge 7 5).groupsOf 10).map
        fun e => e.user.active) = some true := by
  have h := c1_parent_window_merge
    [⟨[], some 10, some 20, true, true, none, "A"⟩,
     ⟨[], some 5, none, true, true, none, "C"⟩]
    (by decide) (by decide) 7
  refine ⟨h.2.2.1 ⟨⟨[], some 5, none, true, true, none, "C"⟩, by decide, by decide⟩,
    ?_, h.2.2.2.2.mpr (by decide)⟩
  obtain ⟨v, hv, _, hmin⟩ := h.1
  refine ⟨v, hv, ?_⟩
  have hle := hmin ⟨[], some 5, none, true, true, none, "C"⟩ (by decide) 5 rfl
  have : parentFrom [⟨[], some 10, some 20, true, true, none, "A"⟩,
      ⟨[], some 5, none, true, true, none, "C"⟩] = some 5 := by decide
  rw [this] at hv
  injection hv with hv
  omega
